import Mathlib

/-!
Verification of the callback coordination core of the n8n SSO relay
(`src/apps/auth/oauth_state.py` and the session-reuse decision in
`src/apps/auth/services.py`).

The Python module keeps four process-wide stores:
  `_oauth_states : Dict[str, OAuthState]`,
  `_processing_locks : Dict[str, asyncio.Lock]`,
  `_processed_codes : Set[str]`,
  `_active_sessions : Dict[str, SessionInfo]`.
We embed Python dicts as insertion-ordered association lists (lookup finds
the first matching key, inserting an existing key replaces the value in
place, inserting a fresh key appends), sets as duplicate-free lists, wall
clock times as rationals passed explicitly, and the `uuid4` fresh
identifiers as explicit arguments.  Operations that mutate module state
become functions from store to store.
-/

namespace N8nSso

/-- A Python `dict` with string keys: an insertion-ordered association list. -/
abbrev Dict (α : Type) : Type := List (String × α)

/-- `d[k]` lookup: first entry whose key equals `k`. -/
def dictLookup {α : Type} (d : Dict α) (k : String) : Option α :=
  match d with
  | [] => none
  | (k2, v) :: rest => if k2 = k then some v else dictLookup rest k

/-- `d[k] = v`: replace the value in place if the key exists, else append. -/
def dictInsert {α : Type} (d : Dict α) (k : String) (v : α) : Dict α :=
  match d with
  | [] => [(k, v)]
  | (k2, v2) :: rest =>
    if k2 = k then (k2, v) :: rest else (k2, v2) :: dictInsert rest k v

/-- `del d[k]`: drop every entry whose key is `k`. -/
def dictErase {α : Type} (d : Dict α) (k : String) : Dict α :=
  d.filter (fun p => !(p.1 = k : Bool))

/-- The key set of a dict, in insertion order. -/
def dictKeys {α : Type} (d : Dict α) : List String :=
  d.map Prod.fst

theorem dictLookup_insert_self {α : Type} (d : Dict α) (k : String) (v : α) :
    dictLookup (dictInsert d k v) k = some v := by
  induction d with
  | nil => simp [dictInsert, dictLookup]
  | cons hd tl ih =>
    by_cases h : hd.1 = k
    · simp [dictInsert, dictLookup, h]
    · simp [dictInsert, dictLookup, h, ih]

theorem dictLookup_insert_ne {α : Type} (d : Dict α) (k k2 : String) (v : α)
    (h : k2 ≠ k) : dictLookup (dictInsert d k v) k2 = dictLookup d k2 := by
  induction d with
  | nil => simp [dictInsert, dictLookup, Ne.symm h]
  | cons hd tl ih =>
    by_cases hh : hd.1 = k
    · simp [dictInsert, dictLookup, hh, Ne.symm h]
    · by_cases hh2 : hd.1 = k2 <;>
        simp [dictInsert, dictLookup, hh, hh2, ih, h, Ne.symm h]

theorem dictKeys_insert {α : Type} (d : Dict α) (k : String) (v : α) :
    dictKeys (dictInsert d k v) =
      if k ∈ dictKeys d then dictKeys d else dictKeys d ++ [k] := by
  induction d with
  | nil => simp [dictKeys, dictInsert]
  | cons hd tl ih =>
    simp only [dictKeys] at ih ⊢
    by_cases hh : hd.1 = k
    · simp [dictInsert, hh]
    · have hne : ¬ k = hd.1 := fun h2 => hh h2.symm
      by_cases hm : k ∈ List.map Prod.fst tl <;>
        simp [dictInsert, hh, hne, hm, ih]

theorem dictKeys_subset_insert {α : Type} (d : Dict α) (k : String) (v : α) :
    ∀ k2 ∈ dictKeys d, k2 ∈ dictKeys (dictInsert d k v) := by
  intro k2 hk2
  rw [dictKeys_insert]
  split
  · exact hk2
  · exact List.mem_append_left _ hk2

/-! ## StateRegistry: `OAuthStateManager` (oauth_state.py lines 60-170) -/

/-- `STATE_EXPIRY = 600` seconds (10 minutes). -/
def STATE_EXPIRY : ℚ := 600

/-- The `OAuthState` dataclass. -/
structure OAuthState where
  state_id : String
  user_ip : String
  user_agent : String
  created_at : ℚ
  request_id : String
  callback_url : String
  is_consumed : Bool := false
  deriving Repr, DecidableEq

/-- `OAuthStateManager.generate_state`: store a fresh state under `state_id`
(the `uuid4` value, passed explicitly) with `is_consumed = false`, and
return the id. -/
def generate_state (states : Dict OAuthState)
    (state_id request_ip user_agent callback_url request_id : String)
    (now : ℚ) : String × Dict OAuthState :=
  (state_id,
   dictInsert states state_id
     { state_id := state_id, user_ip := request_ip, user_agent := user_agent,
       created_at := now, request_id := request_id,
       callback_url := callback_url, is_consumed := false })

/-- `OAuthStateManager.validate_state`: reject an empty or unknown id;
delete and reject an entry older than `STATE_EXPIRY` (strictly older);
reject a consumed entry; otherwise mark the entry consumed and return it.
An IP mismatch is only logged, never a failure. -/
def validate_state (states : Dict OAuthState)
    (state_id request_ip user_agent : String) (now : ℚ) :
    Option OAuthState × Dict OAuthState :=
  if state_id = "" then (none, states)
  else
    match dictLookup states state_id with
    | none => (none, states)
    | some st =>
      if now - st.created_at > STATE_EXPIRY then
        (none, dictErase states state_id)
      else if st.is_consumed then
        (none, states)
      else
        let consumed := { st with is_consumed := true }
        (some consumed, dictInsert states state_id consumed)

/-- `OAuthStateManager.cleanup_expired_states`: drop every entry strictly
older than `STATE_EXPIRY`. -/
def cleanup_expired_states (states : Dict OAuthState) (now : ℚ) :
    Dict OAuthState :=
  states.filter (fun p => !(now - p.2.created_at > STATE_EXPIRY : Bool))

/-- C1: an issued state validates once, even from a different IP, and then
never again.  Issue `sid` at time `t0`; a first validation at any
`ip1`/`ua1` within the TTL returns the stored state (now consumed) with the
issuing IP `ip0`; afterwards every validation of `sid`, from any IP and at
any time, returns `none`. -/
theorem validate_state_single_use (states0 : Dict OAuthState)
    (sid ip0 ua0 cb rid ip1 ua1 : String) (t0 t1 : ℚ)
    (hsid : sid ≠ "") (httl : t1 - t0 ≤ STATE_EXPIRY) :
    (validate_state (generate_state states0 sid ip0 ua0 cb rid t0).2
        sid ip1 ua1 t1).1 =
      some { state_id := sid, user_ip := ip0, user_agent := ua0,
             created_at := t0, request_id := rid, callback_url := cb,
             is_consumed := true } ∧
    ∀ ip2 ua2 t2,
      (validate_state
          (validate_state (generate_state states0 sid ip0 ua0 cb rid t0).2
              sid ip1 ua1 t1).2 sid ip2 ua2 t2).1 = none := by
  have hexp : ¬ (t1 - t0 > STATE_EXPIRY) := not_lt.mpr httl
  constructor
  · simp [validate_state, generate_state, dictLookup_insert_self, hsid, hexp]
  · have hstore :
        (validate_state (generate_state states0 sid ip0 ua0 cb rid t0).2
            sid ip1 ua1 t1).2 =
          dictInsert (generate_state states0 sid ip0 ua0 cb rid t0).2 sid
            { state_id := sid, user_ip := ip0, user_agent := ua0,
              created_at := t0, request_id := rid, callback_url := cb,
              is_consumed := true } := by
      simp [validate_state, generate_state, dictLookup_insert_self, hsid, hexp]
    intro ip2 ua2 t2
    rw [hstore]
    simp only [validate_state, if_neg hsid, dictLookup_insert_self]
    split
    · rfl
    · simp

/-- Witness for `validate_state_single_use` at a concrete input: state `S1`
issued for IP `1.2.3.4` at time 0, validated from `9.9.9.9` at time 1, then
re-validated from `8.8.8.8` at time 2. -/
theorem validate_state_single_use_witness :
    (("S1" : String) ≠ "" ∧ (1 : ℚ) - 0 ≤ STATE_EXPIRY) ∧
    (validate_state (generate_state [] "S1" "1.2.3.4" "ua" "cb" "rid" 0).2
        "S1" "9.9.9.9" "ua1" 1).1 =
      some { state_id := "S1", user_ip := "1.2.3.4", user_agent := "ua",
             created_at := 0, request_id := "rid", callback_url := "cb",
             is_consumed := true } ∧
    (validate_state
        (validate_state (generate_state [] "S1" "1.2.3.4" "ua" "cb" "rid" 0).2
            "S1" "9.9.9.9" "ua1" 1).2 "S1" "8.8.8.8" "ua2" 2).1 = none :=
  ⟨⟨by decide, by simp [STATE_EXPIRY]⟩,
   (validate_state_single_use [] "S1" "1.2.3.4" "ua" "cb" "rid" "9.9.9.9"
      "ua1" 0 1 (by decide) (by simp [STATE_EXPIRY])).1,
   (validate_state_single_use [] "S1" "1.2.3.4" "ua" "cb" "rid" "9.9.9.9"
      "ua1" 0 1 (by decide) (by simp [STATE_EXPIRY])).2 "8.8.8.8" "ua2" 2⟩

/-! ## RedemptionCoordinator: `CallbackProcessor` (oauth_state.py lines 157-237)

`acquire_processing_lock` hashes the code (`sha256(code)[:16]`, embedded as
an abstract fingerprint function `hash`), creates an `asyncio.Lock` for the
fingerprint if none exists, awaits it with a timeout, and after acquiring
re-checks `_processed_codes`; on membership it releases the lock and
returns `False` (already processed), else returns `True` (admitted).  On
timeout it returns `False`.  We give the three distinct exit paths of the
source three distinct names.  The sequential semantics below executes one
call at a time: a lock held at entry can only time out (the single running
task would wait forever), and a free lock is acquired immediately; the
post-acquire block runs atomically exactly as in asyncio, where it contains
no `await`. -/

/-- Result of `acquire_processing_lock`: `Admitted` is the `return True`
path, `AlreadyRedeemed` the `return False` after the processed-set
re-check, `TimedOut` the `except asyncio.TimeoutError` path. -/
inductive AdmitResult where
  | Admitted
  | AlreadyRedeemed
  | TimedOut
  deriving Repr, DecidableEq

/-- The module-level stores `_processing_locks` (fingerprint to
lock-currently-held) and `_processed_codes`. -/
structure CPState where
  locks : Dict Bool
  processed : List String
  deriving Repr, DecidableEq

/-- Python `set.add`: insert without duplicating. -/
def setAdd (s : List String) (x : String) : List String :=
  if x ∈ s then s else s ++ [x]

/-- `CallbackProcessor.acquire_processing_lock` under the sequential
semantics described above. -/
def acquire_processing_lock (hash : String → String) (s : CPState)
    (code : String) : AdmitResult × CPState :=
  let fp := hash code
  let locks :=
    match dictLookup s.locks fp with
    | none => dictInsert s.locks fp false
    | some _ => s.locks
  match dictLookup locks fp with
  | some true => (.TimedOut, { s with locks := locks })
  | _ =>
    if fp ∈ s.processed then
      (.AlreadyRedeemed, { s with locks := locks })
    else
      (.Admitted, { locks := dictInsert locks fp true,
                    processed := s.processed })

/-- `CallbackProcessor.release_processing_lock`: a no-op when no lock entry
exists for the fingerprint; otherwise add the fingerprint to
`_processed_codes` when `mark_processed`, and release the lock when it is
currently held. -/
def release_processing_lock (hash : String → String) (s : CPState)
    (code : String) (mark_processed : Bool) : CPState :=
  let fp := hash code
  match dictLookup s.locks fp with
  | none => s
  | some held =>
    { locks := if held then dictInsert s.locks fp false else s.locks,
      processed :=
        if mark_processed then setAdd s.processed fp else s.processed }

/-- `CallbackProcessor.cleanup_processed_codes`: when the processed set
exceeds 10000 entries, drop an arbitrary 5000 of them (the first 5000 in
iteration order). -/
def cleanup_processed_codes (s : CPState) : CPState :=
  if s.processed.length > 10000 then
    { s with processed := s.processed.drop 5000 }
  else s

/-- A subsequent operation on the coordinator: another admission attempt or
another release, by any caller for any code. -/
inductive CPOp where
  | tryAdmitOp (code : String)
  | releaseOp (code : String) (mark : Bool)

/-- Apply one coordinator operation to the store. -/
def applyCPOp (hash : String → String) (s : CPState) : CPOp → CPState
  | .tryAdmitOp c => (acquire_processing_lock hash s c).2
  | .releaseOp c m => release_processing_lock hash s c m

/-- Run a list of coordinator operations in order. -/
def runCPOps (hash : String → String) (s : CPState) (ops : List CPOp) :
    CPState :=
  ops.foldl (applyCPOp hash) s

theorem acquire_processed_unchanged (hash : String → String) (s : CPState)
    (c : String) :
    ((acquire_processing_lock hash s c).2).processed = s.processed := by
  simp only [acquire_processing_lock]
  cases hl : dictLookup s.locks (hash c) with
  | none =>
    simp only [dictLookup_insert_self]
    by_cases hp : hash c ∈ s.processed <;> simp [hp]
  | some held =>
    cases held with
    | true => simp [hl]
    | false => by_cases hp : hash c ∈ s.processed <;> simp [hl, hp]

theorem acquire_locks_other (hash : String → String) (s : CPState)
    (c fp : String) (hfp : fp ≠ hash c) :
    dictLookup ((acquire_processing_lock hash s c).2).locks fp =
      dictLookup s.locks fp := by
  have hlem := fun (d : Dict Bool) (v : Bool) =>
    dictLookup_insert_ne d (hash c) fp v hfp
  simp only [acquire_processing_lock]
  cases hl : dictLookup s.locks (hash c) with
  | none =>
    simp only [dictLookup_insert_self]
    by_cases hp : hash c ∈ s.processed <;> simp [hp, hlem]
  | some held =>
    cases held with
    | true => simp [hl]
    | false => by_cases hp : hash c ∈ s.processed <;> simp [hl, hp, hlem]

theorem acquire_locks_self_processed (hash : String → String) (s : CPState)
    (c : String) (h1 : hash c ∈ s.processed)
    (h2 : dictLookup s.locks (hash c) ≠ some true) :
    dictLookup ((acquire_processing_lock hash s c).2).locks (hash c) ≠
      some true := by
  simp only [acquire_processing_lock]
  cases hl : dictLookup s.locks (hash c) with
  | none => simp [dictLookup_insert_self, h1]
  | some held =>
    cases held with
    | true => exact absurd hl h2
    | false => simp [hl, h1]

theorem release_processed_superset (hash : String → String) (s : CPState)
    (c : String) (m : Bool) (fp : String) (h1 : fp ∈ s.processed) :
    fp ∈ (release_processing_lock hash s c m).processed := by
  simp only [release_processing_lock]
  cases hl : dictLookup s.locks (hash c) with
  | none => exact h1
  | some held =>
    cases m with
    | false => simpa using h1
    | true =>
      simp only [setAdd]
      by_cases hp : hash c ∈ s.processed <;> simp [hp, h1]

theorem release_locks_not_held (hash : String → String) (s : CPState)
    (c : String) (m : Bool) (fp : String)
    (h2 : dictLookup s.locks fp ≠ some true) :
    dictLookup (release_processing_lock hash s c m).locks fp ≠
      some true := by
  simp only [release_processing_lock]
  cases hl : dictLookup s.locks (hash c) with
  | none => exact h2
  | some held =>
    cases held with
    | false => simpa using h2
    | true =>
      by_cases hc : hash c = fp
      · subst hc
        simp [dictLookup_insert_self]
      · have hlem := dictLookup_insert_ne s.locks (hash c) fp false
          (Ne.symm hc)
        simpa [hlem] using h2

/-- Once a fingerprint is in the processed set and its lock is not held,
any single further admission or release keeps it that way. -/
theorem cpInv_preserved (hash : String → String) (fp : String)
    (s : CPState) (op : CPOp)
    (h1 : fp ∈ s.processed) (h2 : dictLookup s.locks fp ≠ some true) :
    fp ∈ (applyCPOp hash s op).processed ∧
      dictLookup (applyCPOp hash s op).locks fp ≠ some true := by
  cases op with
  | tryAdmitOp c =>
    refine ⟨?_, ?_⟩
    · show fp ∈ ((acquire_processing_lock hash s c).2).processed
      rw [acquire_processed_unchanged]
      exact h1
    · by_cases hc : hash c = fp
      · subst hc
        exact acquire_locks_self_processed hash s c h1 h2
      · show dictLookup ((acquire_processing_lock hash s c).2).locks fp ≠
          some true
        rw [acquire_locks_other hash s c fp (Ne.symm hc)]
        exact h2
  | releaseOp c m =>
    exact ⟨release_processed_superset hash s c m fp h1,
           release_locks_not_held hash s c m fp h2⟩

/-- The invariant of `cpInv_preserved`, carried over a whole operation
list. -/
theorem cpInv_run (hash : String → String) (fp : String)
    (ops : List CPOp) (s : CPState)
    (h1 : fp ∈ s.processed) (h2 : dictLookup s.locks fp ≠ some true) :
    fp ∈ (runCPOps hash s ops).processed ∧
      dictLookup (runCPOps hash s ops).locks fp ≠ some true := by
  induction ops generalizing s with
  | nil => exact ⟨h1, h2⟩
  | cons op rest ih =>
    have hstep := cpInv_preserved hash fp s op h1 h2
    exact ih (applyCPOp hash s op) hstep.1 hstep.2

theorem acquire_admitted_parts (hash : String → String) (s : CPState)
    (c : String) (h1 : hash c ∉ s.processed)
    (h2 : dictLookup s.locks (hash c) ≠ some true) :
    (acquire_processing_lock hash s c).1 = .Admitted ∧
    dictLookup ((acquire_processing_lock hash s c).2).locks (hash c) =
      some true := by
  simp only [acquire_processing_lock]
  cases hl : dictLookup s.locks (hash c) with
  | none => simp [dictLookup_insert_self, h1]
  | some held =>
    cases held with
    | true => exact absurd hl h2
    | false => simp [hl, h1, dictLookup_insert_self]

theorem acquire_already (hash : String → String) (s : CPState)
    (c : String) (h1 : hash c ∈ s.processed)
    (h2 : dictLookup s.locks (hash c) ≠ some true) :
    (acquire_processing_lock hash s c).1 = .AlreadyRedeemed := by
  simp only [acquire_processing_lock]
  cases hl : dictLookup s.locks (hash c) with
  | none => simp [dictLookup_insert_self, h1]
  | some held =>
    cases held with
    | true => exact absurd hl h2
    | false => simp [hl, h1]

theorem release_held_results (hash : String → String) (s : CPState)
    (c : String) (m : Bool)
    (hheld : dictLookup s.locks (hash c) = some true) :
    dictLookup ((release_processing_lock hash s c m).locks) (hash c) =
      some false ∧
    (release_processing_lock hash s c false).processed = s.processed ∧
    hash c ∈ (release_processing_lock hash s c true).processed := by
  simp only [release_processing_lock, hheld]
  refine ⟨by simp [dictLookup_insert_self], by simp, ?_⟩
  simp only [setAdd]
  by_cases hp : hash c ∈ s.processed <;> simp [hp]

/-- C2: a failed attempt is retryable, a successful redemption is
permanent.  From any store where `code` is not yet redeemed and its lock is
free, an admission succeeds; releasing it with `mark_processed = false`
leaves the code admissible again, while releasing it with
`mark_processed = true` makes every later admission attempt — after any
interleaved sequence of admissions and releases by other callers — return
`AlreadyRedeemed`. -/
theorem release_retry_and_permanence (hash : String → String) (s : CPState)
    (code : String) (h1 : hash code ∉ s.processed)
    (h2 : dictLookup s.locks (hash code) ≠ some true) :
    (acquire_processing_lock hash s code).1 = .Admitted ∧
    (acquire_processing_lock hash
        (release_processing_lock hash
          (acquire_processing_lock hash s code).2 code false)
        code).1 = .Admitted ∧
    ∀ ops : List CPOp,
      (acquire_processing_lock hash
          (runCPOps hash
            (release_processing_lock hash
              (acquire_processing_lock hash s code).2 code true)
            ops) code).1 = .AlreadyRedeemed := by
  obtain ⟨hres, hlock⟩ := acquire_admitted_parts hash s code h1 h2
  have hproc1 := acquire_processed_unchanged hash s code
  refine ⟨hres, ?_, ?_⟩
  · obtain ⟨hl2, hp2, _⟩ :=
      release_held_results hash (acquire_processing_lock hash s code).2
        code false hlock
    have h1b : hash code ∉
        (release_processing_lock hash
          (acquire_processing_lock hash s code).2 code false).processed := by
      rw [hp2, hproc1]; exact h1
    have h2b : dictLookup
        (release_processing_lock hash
          (acquire_processing_lock hash s code).2 code false).locks
        (hash code) ≠ some true := by
      rw [hl2]; simp
    exact (acquire_admitted_parts hash _ code h1b h2b).1
  · intro ops
    obtain ⟨hl2, _, hmem⟩ :=
      release_held_results hash (acquire_processing_lock hash s code).2
        code true hlock
    have h2b : dictLookup
        (release_processing_lock hash
          (acquire_processing_lock hash s code).2 code true).locks
        (hash code) ≠ some true := by
      rw [hl2]; simp
    obtain ⟨hm, hl⟩ := cpInv_run hash (hash code) ops _ hmem h2b
    exact acquire_already hash _ code hm hl

/-- Witness for `release_retry_and_permanence`: code `ABC123` on the empty
coordinator store, with one interleaved foreign admission attempt after the
successful release. -/
theorem release_retry_and_permanence_witness :
    (("ABC123" : String) ∉ (⟨[], []⟩ : CPState).processed ∧
      dictLookup (⟨[], []⟩ : CPState).locks "ABC123" ≠ some true) ∧
    (acquire_processing_lock (fun c => c) ⟨[], []⟩ "ABC123").1 = .Admitted ∧
    (acquire_processing_lock (fun c => c)
        (release_processing_lock (fun c => c)
          (acquire_processing_lock (fun c => c) ⟨[], []⟩ "ABC123").2
          "ABC123" false)
        "ABC123").1 = .Admitted ∧
    (acquire_processing_lock (fun c => c)
        (runCPOps (fun c => c)
          (release_processing_lock (fun c => c)
            (acquire_processing_lock (fun c => c) ⟨[], []⟩ "ABC123").2
            "ABC123" true)
          [CPOp.tryAdmitOp "OTHER"]) "ABC123").1 = .AlreadyRedeemed :=
  ⟨⟨by decide, by decide⟩,
   (release_retry_and_permanence (fun c => c) ⟨[], []⟩ "ABC123"
      (by decide) (by decide)).1,
   (release_retry_and_permanence (fun c => c) ⟨[], []⟩ "ABC123"
      (by decide) (by decide)).2.1,
   (release_retry_and_permanence (fun c => c) ⟨[], []⟩ "ABC123"
      (by decide) (by decide)).2.2 [CPOp.tryAdmitOp "OTHER"]⟩

/-- C3: when the fingerprint is already in the processed set at the moment
the per-fingerprint lock is acquired, the re-check after acquisition
returns `AlreadyRedeemed` and the lock is released again rather than left
held. -/
theorem acquire_recheck_already_redeemed (hash : String → String)
    (s : CPState) (code : String) (h1 : hash code ∈ s.processed)
    (h2 : dictLookup s.locks (hash code) ≠ some true) :
    (acquire_processing_lock hash s code).1 = .AlreadyRedeemed ∧
    dictLookup ((acquire_processing_lock hash s code).2).locks (hash code) ≠
      some true :=
  ⟨acquire_already hash s code h1 h2,
   acquire_locks_self_processed hash s code h1 h2⟩

/-- Witness for `acquire_recheck_already_redeemed`: code `ABC123` already
redeemed, its lock entry present and free. -/
theorem acquire_recheck_already_redeemed_witness :
    (("ABC123" : String) ∈
        (⟨[("ABC123", false)], ["ABC123"]⟩ : CPState).processed ∧
      dictLookup (⟨[("ABC123", false)], ["ABC123"]⟩ : CPState).locks
        "ABC123" ≠ some true) ∧
    (acquire_processing_lock (fun c => c)
        ⟨[("ABC123", false)], ["ABC123"]⟩ "ABC123").1 = .AlreadyRedeemed ∧
    dictLookup
      ((acquire_processing_lock (fun c => c)
          ⟨[("ABC123", false)], ["ABC123"]⟩ "ABC123").2).locks "ABC123" ≠
      some true :=
  ⟨⟨by decide, by decide⟩,
   (acquire_recheck_already_redeemed (fun c => c)
      ⟨[("ABC123", false)], ["ABC123"]⟩ "ABC123" (by decide) (by decide)).1,
   (acquire_recheck_already_redeemed (fun c => c)
      ⟨[("ABC123", false)], ["ABC123"]⟩ "ABC123" (by decide) (by decide)).2⟩

/-- C9 counterexample: a `release` without a matching prior admission is
not a state no-op.  Admit `ABC123`, release it unmarked (so no admission is
outstanding), then call `release` again with `mark_processed = true`: the
fingerprint is added to the processed set, so the coordinator state
changes. -/
theorem release_unmatched_counterexample :
    release_processing_lock (fun c => c)
        (release_processing_lock (fun c => c)
          (acquire_processing_lock (fun c => c) ⟨[], []⟩ "ABC123").2
          "ABC123" false)
        "ABC123" true ≠
      release_processing_lock (fun c => c)
        (acquire_processing_lock (fun c => c) ⟨[], []⟩ "ABC123").2
        "ABC123" false := by decide

/-- C9 amended: a `release` whose lock is not currently held (a double
release, or one without a matching admission) never raises — it is a total
function — and leaves the lock table unchanged; it also leaves the
processed set unchanged when `mark_processed = false`, but when
`mark_processed = true` and a lock entry exists for the fingerprint it adds
the fingerprint to the processed set. -/
theorem release_unmatched_amended (hash : String → String) (s : CPState)
    (code : String) (mark : Bool)
    (h : dictLookup s.locks (hash code) ≠ some true) :
    (release_processing_lock hash s code mark).locks = s.locks ∧
    (release_processing_lock hash s code false).processed = s.processed ∧
    (release_processing_lock hash s code true).processed =
      (if dictLookup s.locks (hash code) = none then s.processed
       else setAdd s.processed (hash code)) := by
  cases hl : dictLookup s.locks (hash code) with
  | none => simp [release_processing_lock, hl]
  | some held =>
    cases held with
    | true => exact absurd hl h
    | false => simp [release_processing_lock, hl]

/-- Witness for `release_unmatched_amended`: a free lock entry for `c1`,
released with `mark_processed = true` without any admission. -/
theorem release_unmatched_amended_witness :
    (dictLookup (⟨[("c1", false)], []⟩ : CPState).locks "c1" ≠
        some true) ∧
    (release_processing_lock (fun c => c) ⟨[("c1", false)], []⟩ "c1"
        true).locks = (⟨[("c1", false)], []⟩ : CPState).locks ∧
    (release_processing_lock (fun c => c) ⟨[("c1", false)], []⟩ "c1"
        false).processed = (⟨[("c1", false)], []⟩ : CPState).processed ∧
    (release_processing_lock (fun c => c) ⟨[("c1", false)], []⟩ "c1"
        true).processed =
      (if dictLookup (⟨[("c1", false)], []⟩ : CPState).locks "c1" = none
       then (⟨[("c1", false)], []⟩ : CPState).processed
       else setAdd (⟨[("c1", false)], []⟩ : CPState).processed "c1") :=
  ⟨by decide,
   (release_unmatched_amended (fun c => c) ⟨[("c1", false)], []⟩ "c1" true
      (by decide)).1,
   (release_unmatched_amended (fun c => c) ⟨[("c1", false)], []⟩ "c1" true
      (by decide)).2.1,
   (release_unmatched_amended (fun c => c) ⟨[("c1", false)], []⟩ "c1" true
      (by decide)).2.2⟩

/-! ## SessionStore: `SessionManager` (oauth_state.py lines 240-330) and
the session-reuse decision of `handle_casdoor_callback`
(services.py lines 488-523) -/

/-- The `SessionInfo` dataclass. -/
structure SessionInfo where
  email : String
  session_id : String
  created_at : ℚ
  n8n_cookie : Option String := none
  is_persistent : Bool := false
  deriving Repr, DecidableEq

/-- `SessionManager.get_active_session`: the first session in the store
(dict iteration order = insertion order) whose email matches. -/
def get_active_session (sessions : Dict SessionInfo) (email : String) :
    Option SessionInfo :=
  match sessions with
  | [] => none
  | (_, info) :: rest =>
    if info.email = email then some info else get_active_session rest email

/-- `SessionManager.create_session`: build a new record (persistent iff a
cookie is supplied; `fresh_id` is the `uuid4` value); if the active session
found for the email is persistent, return its id and leave the store
untouched, otherwise store the new record under `fresh_id` and return
`fresh_id`. -/
def create_session (sessions : Dict SessionInfo) (email : String)
    (n8n_cookie : Option String) (fresh_id : String) (now : ℚ) :
    String × Dict SessionInfo :=
  let info : SessionInfo :=
    { email := email, session_id := fresh_id, created_at := now,
      n8n_cookie := n8n_cookie, is_persistent := n8n_cookie.isSome }
  match get_active_session sessions email with
  | some existing =>
    if existing.is_persistent then (existing.session_id, sessions)
    else (fresh_id, dictInsert sessions fresh_id info)
  | none => (fresh_id, dictInsert sessions fresh_id info)

/-- `SessionManager.update_session_cookie`: attach the n8n cookie to the
record with this id and mark it persistent; `false` when the id is
unknown. -/
def update_session_cookie (sessions : Dict SessionInfo)
    (session_id n8n_cookie : String) : Bool × Dict SessionInfo :=
  match dictLookup sessions session_id with
  | none => (false, sessions)
  | some info =>
    (true,
     dictInsert sessions session_id
       { info with n8n_cookie := some n8n_cookie, is_persistent := true })

/-- `SessionManager.cleanup_expired_sessions`: drop every record strictly
older than one hour. -/
def cleanup_expired_sessions (sessions : Dict SessionInfo) (now : ℚ) :
    Dict SessionInfo :=
  sessions.filter (fun p => !(now - p.2.created_at > 3600 : Bool))

/-- Outcome of the reuse-vs-refresh decision in `handle_casdoor_callback`:
`Reuse` is the `skip_n8n_login = True` branch, `Refresh` the branch that
keeps the session id but performs a fresh n8n login. -/
inductive ReuseDecision where
  | Reuse (session_id : String)
  | Refresh (session_id : String)
  deriving Repr, DecidableEq

/-- The decision taken in services.py lines 493-521 for an existing
session: reuse exactly when the session is strictly younger than 60
seconds, has a cookie, and is persistent; either way keep the existing
session id. -/
def decide_session_reuse (existing : SessionInfo) (now : ℚ) :
    ReuseDecision :=
  let session_age := now - existing.created_at
  let is_very_recent : Bool := session_age < 60
  let has_cookie : Bool := existing.n8n_cookie.isSome
  if is_very_recent && has_cookie && existing.is_persistent then
    .Reuse existing.session_id
  else
    .Refresh existing.session_id

/-- C4: the reuse window is a closed-open 60-second cutoff.  For a
persistent record with a cookie, the decision is `Reuse` iff the age is
strictly below 60 seconds; a record of age exactly 60, or one that is not
persistent, or one without a cookie, yields `Refresh`, always carrying the
existing session id. -/
theorem decide_session_reuse_cutoff (r : SessionInfo) (now : ℚ) :
    (r.is_persistent = true → r.n8n_cookie ≠ none →
      (decide_session_reuse r now = .Reuse r.session_id ↔
        now - r.created_at < 60)) ∧
    (now - r.created_at = 60 →
      decide_session_reuse r now = .Refresh r.session_id) ∧
    (r.is_persistent = false →
      decide_session_reuse r now = .Refresh r.session_id) ∧
    (r.n8n_cookie = none →
      decide_session_reuse r now = .Refresh r.session_id) := by
  refine ⟨?_, ?_, ?_, ?_⟩
  · intro hp hc
    have hcs : r.n8n_cookie.isSome = true := Option.isSome_iff_ne_none.mpr hc
    constructor
    · intro h
      by_contra hage
      simp [decide_session_reuse, hage, hp, hcs] at h
    · intro hage
      simp [decide_session_reuse, hage, hp, hcs]
  · intro hage
    have : ¬ (now - r.created_at < 60) := by rw [hage]; exact lt_irrefl 60
    simp [decide_session_reuse, this]
  · intro hp
    simp [decide_session_reuse, hp]
  · intro hc
    simp [decide_session_reuse, hc]

/-- Witness for `decide_session_reuse_cutoff`: a persistent record with a
cookie created at time 0 is reused at age 1 and refreshed at age exactly
60; a non-persistent one and a cookie-less one are refreshed. -/
theorem decide_session_reuse_cutoff_witness :
    decide_session_reuse
        ⟨"a@x", "sid", 0, some "ck", true⟩ 1 = .Reuse "sid" ∧
    decide_session_reuse
        ⟨"a@x", "sid", 0, some "ck", true⟩ 60 = .Refresh "sid" ∧
    decide_session_reuse
        ⟨"a@x", "sid", 0, some "ck", false⟩ 1 = .Refresh "sid" ∧
    decide_session_reuse ⟨"a@x", "sid", 0, none, true⟩ 1 = .Refresh "sid" :=
  ⟨((decide_session_reuse_cutoff ⟨"a@x", "sid", 0, some "ck", true⟩ 1).1
      rfl (by decide)).mpr (by simp),
   (decide_session_reuse_cutoff ⟨"a@x", "sid", 0, some "ck", true⟩ 60).2.1
      (by simp),
   (decide_session_reuse_cutoff ⟨"a@x", "sid", 0, some "ck", false⟩ 1).2.2.1
      rfl,
   (decide_session_reuse_cutoff ⟨"a@x", "sid", 0, none, true⟩ 1).2.2.2 rfl⟩

/-- C5 counterexample: a persistent record is not protected when an older
non-persistent record for the same identity precedes it in the store.
Create a cookie-less session `id1` for `a@x`, then a cookie-backed
(persistent) session `id2` for the same identity; `id2`'s record is
persistent, yet a further `create_session` for `a@x` returns the fresh id
`id3` (not `id2`) and inserts a third record, because
`get_active_session` returns the first match `id1`, which is not
persistent. -/
theorem create_session_overwrite_counterexample :
    ((dictLookup
        (create_session
          (create_session [] "a@x" none "id1" 0).2
          "a@x" (some "ck") "id2" 1).2 "id2").map
        SessionInfo.is_persistent = some true ∧
      (dictLookup
        (create_session
          (create_session [] "a@x" none "id1" 0).2
          "a@x" (some "ck") "id2" 1).2 "id2").map
        SessionInfo.email = some "a@x") ∧
    (create_session
        (create_session
          (create_session [] "a@x" none "id1" 0).2
          "a@x" (some "ck") "id2" 1).2
        "a@x" none "id3" 2).1 = "id3" ∧
    ((create_session
        (create_session
          (create_session [] "a@x" none "id1" 0).2
          "a@x" (some "ck") "id2" 1).2
        "a@x" none "id3" 2).2).length = 3 ∧
    ((create_session
        (create_session [] "a@x" none "id1" 0).2
        "a@x" (some "ck") "id2" 1).2).length = 2 := by
  constructor
  · constructor <;> rfl
  · refine ⟨rfl, rfl, rfl⟩

/-- C5 amended: overwrite protection holds for the record that
`get_active_session` actually returns — the first record in insertion
order for the identity.  If that record is persistent, `create_session`
returns its session id and leaves the store unchanged; in particular two
`create_session` calls for the same identity, the first call's session
having become persistent in between, return the same id.  (A persistent
record shadowed by an earlier non-persistent record for the same identity
is not protected.) -/
theorem create_session_overwrite_protection (sessions : Dict SessionInfo)
    (email : String) (cookie : Option String) (fresh : String) (now : ℚ)
    (r : SessionInfo) (h1 : get_active_session sessions email = some r)
    (h2 : r.is_persistent = true) :
    create_session sessions email cookie fresh now =
      (r.session_id, sessions) ∧
    ∀ e id1 ck c2 id2 t1 t3,
      (create_session
          (update_session_cookie
            (create_session [] e none id1 t1).2 id1 ck).2
          e c2 id2 t3).1 = id1 := by
  constructor
  · simp [create_session, h1, h2]
  · intro e id1 ck c2 id2 t1 t3
    simp [create_session, update_session_cookie, get_active_session,
      dictInsert, dictLookup]

/-- Witness for `create_session_overwrite_protection`: a store whose only
record for `a@x` is persistent. -/
theorem create_session_overwrite_protection_witness :
    (get_active_session
        [("id1", ⟨"a@x", "id1", 0, some "ck", true⟩)] "a@x" =
        some ⟨"a@x", "id1", 0, some "ck", true⟩ ∧
      (⟨"a@x", "id1", 0, some "ck", true⟩ : SessionInfo).is_persistent =
        true) ∧
    create_session [("id1", ⟨"a@x", "id1", 0, some "ck", true⟩)] "a@x"
        none "id9" 7 =
      ("id1", [("id1", ⟨"a@x", "id1", 0, some "ck", true⟩)]) ∧
    (create_session
        (update_session_cookie
          (create_session [] "b@x" none "idA" 0).2 "idA" "ck2").2
        "b@x" none "idB" 9).1 = "idA" :=
  ⟨⟨rfl, rfl⟩,
   (create_session_overwrite_protection
      [("id1", ⟨"a@x", "id1", 0, some "ck", true⟩)] "a@x" none "id9" 7
      ⟨"a@x", "id1", 0, some "ck", true⟩ rfl rfl).1,
   (create_session_overwrite_protection
      [("id1", ⟨"a@x", "id1", 0, some "ck", true⟩)] "a@x" none "id9" 7
      ⟨"a@x", "id1", 0, some "ck", true⟩ rfl rfl).2
     "b@x" "idA" "ck2" none "idB" 0 9⟩

/-! ### Traces over the session store (for the per-identity invariant) -/

/-- One operation on `_active_sessions`: the three mutators of
`SessionManager`. -/
inductive SessionOp where
  | createOp (email : String) (cookie : Option String) (fresh : String)
      (now : ℚ)
  | updateCookieOp (sid cookie : String)
  | cleanupOp (now : ℚ)

/-- Apply one session-store operation. -/
def applySessionOp (s : Dict SessionInfo) : SessionOp → Dict SessionInfo
  | .createOp e c f t => (create_session s e c f t).2
  | .updateCookieOp sid ck => (update_session_cookie s sid ck).2
  | .cleanupOp t => cleanup_expired_sessions s t

/-- Run a sequence of session-store operations from the empty store. -/
def runSessionOps (ops : List SessionOp) : Dict SessionInfo :=
  ops.foldl applySessionOp []

/-- The identities of the records in the store, in insertion order. -/
def sessionEmails (s : Dict SessionInfo) : List String :=
  s.map (fun p => p.2.email)

/-- At most one record per identity. -/
def emailsUnique (s : Dict SessionInfo) : Prop :=
  (sessionEmails s).Nodup

/-- Whether an operation is a `create_session` call that supplies a
cookie (so the record it would insert is persistent at creation). -/
def opHasCookie : SessionOp → Bool
  | .createOp _ c _ _ => c.isSome
  | _ => true

theorem get_active_session_mem (s : Dict SessionInfo) (e : String)
    (r : SessionInfo) (h : get_active_session s e = some r) :
    ∃ p ∈ s, p.2 = r := by
  induction s with
  | nil => simp [get_active_session] at h
  | cons hd tl ih =>
    by_cases hh : hd.2.email = e
    · refine ⟨hd, List.mem_cons_self _ _, ?_⟩
      simpa [get_active_session, hh] using h
    · obtain ⟨p, hp, hpr⟩ := ih (by simpa [get_active_session, hh] using h)
      exact ⟨p, List.mem_cons_of_mem _ hp, hpr⟩

theorem get_active_session_none (s : Dict SessionInfo) (e : String)
    (h : get_active_session s e = none) : ∀ p ∈ s, p.2.email ≠ e := by
  induction s with
  | nil => simp
  | cons hd tl ih =>
    by_cases hh : hd.2.email = e
    · simp [get_active_session, hh] at h
    · intro p hp
      rcases List.mem_cons.mp hp with h2 | h2
      · rw [h2]; exact hh
      · exact ih (by simpa [get_active_session, hh] using h) p h2

theorem sessionEmails_cons (hd : String × SessionInfo)
    (tl : Dict SessionInfo) :
    sessionEmails (hd :: tl) = hd.2.email :: sessionEmails tl := rfl

theorem mem_sessionEmails_insert (tl : Dict SessionInfo) (k : String)
    (v : SessionInfo) (x : String)
    (h : x ∈ sessionEmails (dictInsert tl k v)) :
    x ∈ sessionEmails tl ∨ x = v.email := by
  induction tl with
  | nil =>
    right
    have hins : sessionEmails (dictInsert [] k v) = [v.email] := rfl
    rw [hins] at h
    simpa using h
  | cons hd tl2 ih =>
    by_cases hh : hd.1 = k
    · have hins : dictInsert (hd :: tl2) k v = (hd.1, v) :: tl2 := by
        simp [dictInsert, hh]
      rw [hins, sessionEmails_cons] at h
      rcases List.mem_cons.mp h with h2 | h2
      · exact Or.inr h2
      · exact Or.inl
          (by rw [sessionEmails_cons]; exact List.mem_cons_of_mem _ h2)
    · have hins : dictInsert (hd :: tl2) k v = hd :: dictInsert tl2 k v := by
        simp [dictInsert, hh]
      rw [hins, sessionEmails_cons] at h
      rcases List.mem_cons.mp h with h2 | h2
      · exact Or.inl
          (by rw [sessionEmails_cons, h2]; exact List.mem_cons_self _ _)
      · rcases ih h2 with h3 | h3
        · exact Or.inl
            (by rw [sessionEmails_cons]; exact List.mem_cons_of_mem _ h3)
        · exact Or.inr h3

theorem nodupEmails_insert (s : Dict SessionInfo) (k : String)
    (v : SessionInfo) (hnd : (sessionEmails s).Nodup)
    (hnew : ∀ p ∈ s, p.2.email ≠ v.email) :
    (sessionEmails (dictInsert s k v)).Nodup := by
  induction s with
  | nil =>
    have hins : sessionEmails (dictInsert [] k v) = [v.email] := rfl
    rw [hins]
    exact List.nodup_singleton _
  | cons hd tl ih =>
    rw [sessionEmails_cons, List.nodup_cons] at hnd
    obtain ⟨hhdmem, hndtl⟩ := hnd
    have hhd : hd.2.email ≠ v.email := hnew hd (List.mem_cons_self _ _)
    by_cases hh : hd.1 = k
    · have hins : dictInsert (hd :: tl) k v = (hd.1, v) :: tl := by
        simp [dictInsert, hh]
      rw [hins, sessionEmails_cons, List.nodup_cons]
      refine ⟨?_, hndtl⟩
      intro hmem
      rcases List.mem_map.mp hmem with ⟨p, hp, hpe⟩
      exact hnew p (List.mem_cons_of_mem _ hp) hpe
    · have hins : dictInsert (hd :: tl) k v = hd :: dictInsert tl k v := by
        simp [dictInsert, hh]
      rw [hins, sessionEmails_cons, List.nodup_cons]
      refine ⟨?_, ih hndtl (fun p hp => hnew p (List.mem_cons_of_mem _ hp))⟩
      intro hmem
      rcases mem_sessionEmails_insert tl k v _ hmem with h2 | h2
      · exact hhdmem h2
      · exact hhd h2

theorem sessionEmails_insert_existing (s : Dict SessionInfo) (k : String)
    (v w : SessionInfo) (hl : dictLookup s k = some w)
    (he : v.email = w.email) :
    sessionEmails (dictInsert s k v) = sessionEmails s := by
  induction s with
  | nil => simp [dictLookup] at hl
  | cons hd tl ih =>
    by_cases hh : hd.1 = k
    · have hw : hd.2 = w := by simpa [dictLookup, hh] using hl
      simp [dictInsert, sessionEmails, hh, he, hw]
    · have := ih (by simpa [dictLookup, hh] using hl)
      simpa [dictInsert, sessionEmails, hh] using this

theorem allPersistent_insert (s : Dict SessionInfo) (k : String)
    (v : SessionInfo) (hs : ∀ p ∈ s, p.2.is_persistent = true)
    (hv : v.is_persistent = true) :
    ∀ p ∈ dictInsert s k v, p.2.is_persistent = true := by
  induction s with
  | nil =>
    intro p hp
    rcases (by simpa [dictInsert] using hp : p = (k, v)) with rfl
    exact hv
  | cons hd tl ih =>
    intro p hp
    by_cases hh : hd.1 = k
    · rcases (by simpa [dictInsert, hh] using hp) with h2 | h2
      · rw [h2]; exact hv
      · exact hs p (List.mem_cons_of_mem _ h2)
    · rcases (by simpa [dictInsert, hh] using hp) with h2 | h2
      · rw [h2]; exact hs hd (List.mem_cons_self _ _)
      · exact ih (fun q hq => hs q (List.mem_cons_of_mem _ hq)) p h2

theorem sessionInv_step (s : Dict SessionInfo) (op : SessionOp)
    (hnd : (sessionEmails s).Nodup)
    (hpers : ∀ p ∈ s, p.2.is_persistent = true)
    (hop : opHasCookie op = true) :
    (sessionEmails (applySessionOp s op)).Nodup ∧
      ∀ p ∈ applySessionOp s op, p.2.is_persistent = true := by
  cases op with
  | createOp e c f t =>
    have hc : c.isSome = true := by simpa [opHasCookie] using hop
    show (sessionEmails (create_session s e c f t).2).Nodup ∧
      ∀ p ∈ (create_session s e c f t).2, p.2.is_persistent = true
    cases hga : get_active_session s e with
    | some r =>
      obtain ⟨p, hp, hpr⟩ := get_active_session_mem s e r hga
      have hrp : r.is_persistent = true := hpr ▸ hpers p hp
      have heq : (create_session s e c f t).2 = s := by
        simp [create_session, hga, hrp]
      rw [heq]
      exact ⟨hnd, hpers⟩
    | none =>
      have hnew : ∀ p ∈ s, p.2.email ≠ e := get_active_session_none s e hga
      have heq : (create_session s e c f t).2 =
          dictInsert s f
            { email := e, session_id := f, created_at := t,
              n8n_cookie := c, is_persistent := c.isSome } := by
        simp [create_session, hga]
      rw [heq]
      exact ⟨nodupEmails_insert s f _ hnd (fun p hp => hnew p hp),
             allPersistent_insert s f _ hpers hc⟩
  | updateCookieOp sid ck =>
    show (sessionEmails (update_session_cookie s sid ck).2).Nodup ∧
      ∀ p ∈ (update_session_cookie s sid ck).2, p.2.is_persistent = true
    cases hlu : dictLookup s sid with
    | none =>
      have heq : (update_session_cookie s sid ck).2 = s := by
        simp [update_session_cookie, hlu]
      rw [heq]
      exact ⟨hnd, hpers⟩
    | some info =>
      have heq : (update_session_cookie s sid ck).2 =
          dictInsert s sid
            { info with n8n_cookie := some ck, is_persistent := true } := by
        simp [update_session_cookie, hlu]
      rw [heq]
      refine ⟨?_, allPersistent_insert s sid _ hpers rfl⟩
      rw [sessionEmails_insert_existing s sid
        { info with n8n_cookie := some ck, is_persistent := true } info
        hlu rfl]
      exact hnd
  | cleanupOp t =>
    constructor
    · have hsub : List.Sublist (sessionEmails (cleanup_expired_sessions s t))
          (sessionEmails s) :=
        List.Sublist.map _ (List.filter_sublist s)
      exact List.Nodup.sublist hsub hnd
    · intro p hp
      exact hpers p (List.mem_of_mem_filter hp)

theorem sessionInv_run (ops : List SessionOp) (s : Dict SessionInfo)
    (hnd : (sessionEmails s).Nodup)
    (hpers : ∀ p ∈ s, p.2.is_persistent = true)
    (hops : ∀ op ∈ ops, opHasCookie op = true) :
    (sessionEmails (ops.foldl applySessionOp s)).Nodup ∧
      ∀ p ∈ ops.foldl applySessionOp s, p.2.is_persistent = true := by
  induction ops generalizing s with
  | nil => exact ⟨hnd, hpers⟩
  | cons op rest ih =>
    have hstep := sessionInv_step s op hnd hpers
      (hops op (List.mem_cons_self _ _))
    exact ih (applySessionOp s op) hstep.1 hstep.2
      (fun o ho => hops o (List.mem_cons_of_mem _ ho))

/-- C6 counterexample: the per-identity uniqueness invariant fails on the
code.  Two cookie-less `create_session` calls for the same identity, run
from the empty store, leave two records whose identity is `a@x`: the
second call finds the first record non-persistent and inserts a second
one. -/
theorem session_identity_unique_counterexample :
    sessionEmails (runSessionOps
        [.createOp "a@x" none "id1" 0, .createOp "a@x" none "id2" 0]) =
      ["a@x", "a@x"] ∧
    ¬ (sessionEmails (runSessionOps
        [.createOp "a@x" none "id1" 0,
         .createOp "a@x" none "id2" 0])).Nodup := by
  exact ⟨rfl, by decide⟩

/-- C6 amended: the store keeps at most one record per identity over every
operation sequence in which each `create_session` call supplies a
downstream cookie (so every inserted record is persistent at creation);
without that restriction the invariant fails, since a `create_session`
whose first-match for the identity is non-persistent inserts a second
record for that identity. -/
theorem session_identity_unique (ops : List SessionOp)
    (h : ∀ op ∈ ops, opHasCookie op = true) :
    emailsUnique (runSessionOps ops) :=
  (sessionInv_run ops [] List.nodup_nil (by simp) h).1

/-- Witness for `session_identity_unique`: two cookie-backed creates for
the same identity, a cookie update and a sweep. -/
theorem session_identity_unique_witness :
    (∀ op ∈ [SessionOp.createOp "a@x" (some "ck") "id1" 0,
             SessionOp.createOp "a@x" (some "ck2") "id2" 1,
             SessionOp.updateCookieOp "id1" "ck3",
             SessionOp.cleanupOp 50], opHasCookie op = true) ∧
    emailsUnique (runSessionOps
      [SessionOp.createOp "a@x" (some "ck") "id1" 0,
       SessionOp.createOp "a@x" (some "ck2") "id2" 1,
       SessionOp.updateCookieOp "id1" "ck3",
       SessionOp.cleanupOp 50]) :=
  ⟨by decide,
   session_identity_unique
     [SessionOp.createOp "a@x" (some "ck") "id1" 0,
      SessionOp.createOp "a@x" (some "ck2") "id2" 1,
      SessionOp.updateCookieOp "id1" "ck3",
      SessionOp.cleanupOp 50] (by decide)⟩

/-! ## Concurrent admissions for one fingerprint

The asyncio semantics of `acquire_processing_lock` /
`release_processing_lock` for a single fingerprint, with several tasks: the
event loop interleaves tasks only at `await` points, so the block between a
successful `lock.acquire()` and the subsequent `return` (which contains no
`await`) is one atomic step, as is `release_processing_lock` (a plain
function).  `holder` is the task holding the `asyncio.Lock`, `redeemed`
whether the fingerprint is in `_processed_codes`, and `admitted` the tasks
whose call returned `True` and which have not yet released (the release
here is the matching one performed by the admitted caller, as the callers
of the source do in `process_oauth_callback_safely`). -/

/-- Lock/redemption state for a single fingerprint under concurrent
callers (tasks are numbered). -/
structure ConcState where
  holder : Option Nat
  redeemed : Bool
  admitted : List Nat
  deriving Repr, DecidableEq

/-- One atomic step of some task `k`. -/
inductive ConcStep : ConcState → ConcState → Prop where
  /-- Task `k` acquires the free lock, finds the fingerprint unredeemed,
  and returns `True`. -/
  | stepAdmitted {s : ConcState} (k : Nat) (hfree : s.holder = none)
      (hred : s.redeemed = false) :
      ConcStep s ⟨some k, false, k :: s.admitted⟩
  /-- Task `k` acquires the free lock, finds the fingerprint redeemed,
  releases the lock again and returns `False`. -/
  | stepAlreadyRedeemed {s : ConcState} (k : Nat) (hfree : s.holder = none)
      (hred : s.redeemed = true) : ConcStep s s
  /-- Task `k`'s `asyncio.wait_for` times out while another task holds the
  lock; nothing changes. -/
  | stepTimedOut {s : ConcState} (k : Nat) : ConcStep s s
  /-- The admitted task `k` releases, optionally marking the fingerprint
  processed. -/
  | stepRelease {s : ConcState} (k : Nat) (mark : Bool)
      (hmem : k ∈ s.admitted) (hhold : s.holder = some k) :
      ConcStep s ⟨none, s.redeemed || mark, s.admitted.erase k⟩

/-- States reachable from the initial state (no holder, not redeemed,
nobody admitted). -/
inductive ConcReachable : ConcState → Prop where
  | init : ConcReachable ⟨none, false, []⟩
  | step {s t : ConcState} :
      ConcReachable s → ConcStep s t → ConcReachable t

/-- C7: mutual exclusion of admissions.  In every reachable state at most
one task has an outstanding admission, and an admitted task is exactly the
holder of the per-fingerprint lock — so no further `stepAdmitted` (whose
guard needs a free lock) can fire until the admitted task releases. -/
theorem tryAdmit_single_admitted (s : ConcState) (h : ConcReachable s) :
    s.admitted.length ≤ 1 ∧ ∀ k ∈ s.admitted, s.holder = some k := by
  induction h with
  | init => simp
  | step hr hstep ih =>
    rename_i s2 t2
    cases hstep with
    | stepAdmitted k hfree hred =>
      have hnil : s2.admitted = [] := by
        cases hadm : s2.admitted with
        | nil => rfl
        | cons a rest =>
          have := ih.2 a (by rw [hadm]; exact List.mem_cons_self _ _)
          rw [hfree] at this
          exact absurd this (by simp)
      refine ⟨by simp [hnil], ?_⟩
      intro k2 hk2
      have h2 : k2 = k := by simpa [hnil] using hk2
      simp [h2]
    | stepAlreadyRedeemed k hfree hred => exact ih
    | stepTimedOut k => exact ih
    | stepRelease k mark hmem hhold =>
      have hone : s2.admitted = [k] := by
        cases hadm : s2.admitted with
        | nil => rw [hadm] at hmem; exact absurd hmem (by simp)
        | cons a rest =>
          have hlen := ih.1
          rw [hadm] at hlen
          have hrest : rest = [] := by
            cases rest with
            | nil => rfl
            | cons b r2 => simp at hlen
          rw [hadm, hrest] at hmem
          have : k = a := by simpa using hmem
          rw [hrest, this]
      refine ⟨?_, ?_⟩
      · simp [hone]
      · intro k2 hk2
        simp [hone] at hk2

/-- Witness for `tryAdmit_single_admitted`: the reachable state after task
0 was admitted. -/
theorem tryAdmit_single_admitted_witness :
    ConcReachable ⟨some 0, false, [0]⟩ ∧
    ((⟨some 0, false, [0]⟩ : ConcState).admitted.length ≤ 1 ∧
      ∀ k ∈ (⟨some 0, false, [0]⟩ : ConcState).admitted,
        (⟨some 0, false, [0]⟩ : ConcState).holder = some k) :=
  ⟨ConcReachable.step ConcReachable.init
     (ConcStep.stepAdmitted 0 rfl rfl),
   tryAdmit_single_admitted ⟨some 0, false, [0]⟩
     (ConcReachable.step ConcReachable.init
       (ConcStep.stepAdmitted 0 rfl rfl))⟩

/-! ## Janitor: `cleanup_oauth_data` (oauth_state.py lines 333-341)

The driver calls the three sweeps in sequence with no `try`/`except`
around any of them.  Since any Python call may raise, each sweep is
embedded as a fallible action; the driver itself is exactly the sequential
composition the source performs. -/

/-- `cleanup_oauth_data`: `cleanup_expired_states`, then
`cleanup_processed_codes`, then `cleanup_expired_sessions`, sequentially
and unguarded. -/
def cleanup_oauth_data {S E : Type}
    (sweepStates sweepCodes sweepSessions : S → Except E S) (s : S) :
    Except E S := do
  let s1 ← sweepStates s
  let s2 ← sweepCodes s1
  sweepSessions s2

/-- C8 counterexample: when the state-registry sweep raises, the other two
sweeps are **not** executed.  With a raising first sweep and trace-writing
second and third sweeps, the run produces the error and no trace — in
particular not the trace the claim demands. -/
theorem cleanup_no_per_store_catch_counterexample :
    cleanup_oauth_data
        (fun _ : List String => (Except.error () : Except Unit (List String)))
        (fun l => Except.ok (l ++ ["codes"]))
        (fun l => Except.ok (l ++ ["sessions"])) [] = Except.error () ∧
    cleanup_oauth_data
        (fun _ : List String => (Except.error () : Except Unit (List String)))
        (fun l => Except.ok (l ++ ["codes"]))
        (fun l => Except.ok (l ++ ["sessions"])) [] ≠
      Except.ok ["codes", "sessions"] :=
  ⟨rfl, fun h => Except.noConfusion h⟩

/-- C8 amended: `cleanup_oauth_data` has no per-store exception handling:
a sweep that raises propagates out of the driver, and the sweeps after it
are skipped. -/
theorem cleanup_error_propagates {S E : Type}
    (sweepStates sweepCodes sweepSessions : S → Except E S) (s : S) (e : E)
    (h : sweepStates s = Except.error e) :
    cleanup_oauth_data sweepStates sweepCodes sweepSessions s =
      Except.error e := by
  unfold cleanup_oauth_data
  rw [h]
  rfl

/-- Witness for `cleanup_error_propagates`: a raising state sweep over a
one-marker trace state. -/
theorem cleanup_error_propagates_witness :
    ((fun _ : List String => (Except.error () : Except Unit (List String)))
        ["start"] = Except.error ()) ∧
    cleanup_oauth_data
        (fun _ : List String => (Except.error () : Except Unit (List String)))
        (fun l => Except.ok (l ++ ["codes"]))
        (fun l => Except.ok (l ++ ["sessions"])) ["start"] =
      Except.error () :=
  ⟨rfl,
   cleanup_error_propagates
     (fun _ => Except.error ())
     (fun l => Except.ok (l ++ ["codes"]))
     (fun l => Except.ok (l ++ ["sessions"])) ["start"] () rfl⟩

/-! ## The whole module state (for the lock-table growth invariant) -/

/-- All four module-level stores of oauth_state.py. -/
structure GlobalState where
  oauth_states : Dict OAuthState
  locks : Dict Bool
  processed : List String
  sessions : Dict SessionInfo

/-- Every mutating operation the module exposes on its stores. -/
inductive GlobalOp where
  | genStateOp (sid ip ua cb rid : String) (now : ℚ)
  | validateStateOp (sid ip ua : String) (now : ℚ)
  | sweepStatesOp (now : ℚ)
  | admitOp (code : String)
  | relOp (code : String) (mark : Bool)
  | sweepCodesOp
  | createSessionOp (email : String) (cookie : Option String)
      (fresh : String) (now : ℚ)
  | updateCookieGOp (sid ck : String)
  | sweepSessionsOp (now : ℚ)
  | cleanupAllOp (now : ℚ)

/-- Apply one module operation; `cleanupAllOp` is `cleanup_oauth_data`'s
sequence of the three sweeps. -/
def applyGlobalOp (hash : String → String) (g : GlobalState) :
    GlobalOp → GlobalState
  | .genStateOp sid ip ua cb rid t =>
    { g with oauth_states :=
        (generate_state g.oauth_states sid ip ua cb rid t).2 }
  | .validateStateOp sid ip ua t =>
    { g with oauth_states := (validate_state g.oauth_states sid ip ua t).2 }
  | .sweepStatesOp t =>
    { g with oauth_states := cleanup_expired_states g.oauth_states t }
  | .admitOp c =>
    let r := acquire_processing_lock hash ⟨g.locks, g.processed⟩ c
    { g with locks := r.2.locks, processed := r.2.processed }
  | .relOp c m =>
    let r := release_processing_lock hash ⟨g.locks, g.processed⟩ c m
    { g with locks := r.locks, processed := r.processed }
  | .sweepCodesOp =>
    let r := cleanup_processed_codes ⟨g.locks, g.processed⟩
    { g with locks := r.locks, processed := r.processed }
  | .createSessionOp e c f t =>
    { g with sessions := (create_session g.sessions e c f t).2 }
  | .updateCookieGOp sid ck =>
    { g with sessions := (update_session_cookie g.sessions sid ck).2 }
  | .sweepSessionsOp t =>
    { g with sessions := cleanup_expired_sessions g.sessions t }
  | .cleanupAllOp t =>
    let g1 := { g with oauth_states :=
        cleanup_expired_states g.oauth_states t }
    let r := cleanup_processed_codes ⟨g1.locks, g1.processed⟩
    let g2 := { g1 with locks := r.locks, processed := r.processed }
    { g2 with sessions := cleanup_expired_sessions g2.sessions t }

theorem cleanup_codes_locks_eq (s : CPState) :
    (cleanup_processed_codes s).locks = s.locks := by
  unfold cleanup_processed_codes
  split <;> rfl

theorem acquire_locks_keys_superset (hash : String → String) (s : CPState)
    (c : String) :
    ∀ k ∈ dictKeys s.locks,
      k ∈ dictKeys ((acquire_processing_lock hash s c).2).locks := by
  intro k hk
  simp only [acquire_processing_lock]
  cases hl : dictLookup s.locks (hash c) with
  | none =>
    simp only [dictLookup_insert_self]
    by_cases hp : hash c ∈ s.processed
    · simpa [hp] using dictKeys_subset_insert s.locks (hash c) false k hk
    · simp only [hp, if_neg hp]
      exact dictKeys_subset_insert _ (hash c) true k
        (dictKeys_subset_insert s.locks (hash c) false k hk)
  | some held =>
    cases held with
    | true => simpa [hl] using hk
    | false =>
      by_cases hp : hash c ∈ s.processed
      · simpa [hl, hp] using hk
      · simp only [hl, hp, if_neg hp]
        exact dictKeys_subset_insert s.locks (hash c) true k hk

theorem release_locks_keys_superset (hash : String → String) (s : CPState)
    (c : String) (m : Bool) :
    ∀ k ∈ dictKeys s.locks,
      k ∈ dictKeys ((release_processing_lock hash s c m).locks) := by
  intro k hk
  simp only [release_processing_lock]
  cases hl : dictLookup s.locks (hash c) with
  | none => exact hk
  | some held =>
    cases held with
    | false => simpa using hk
    | true =>
      simp only
      exact dictKeys_subset_insert s.locks (hash c) false k hk

theorem lock_table_monotone_step (hash : String → String) (g : GlobalState)
    (op : GlobalOp) :
    ∀ k ∈ dictKeys g.locks, k ∈ dictKeys (applyGlobalOp hash g op).locks := by
  intro k hk
  cases op with
  | genStateOp sid ip ua cb rid t => exact hk
  | validateStateOp sid ip ua t => exact hk
  | sweepStatesOp t => exact hk
  | admitOp c =>
    exact acquire_locks_keys_superset hash ⟨g.locks, g.processed⟩ c k hk
  | relOp c m =>
    exact release_locks_keys_superset hash ⟨g.locks, g.processed⟩ c m k hk
  | sweepCodesOp =>
    show k ∈ dictKeys (cleanup_processed_codes ⟨g.locks, g.processed⟩).locks
    rw [cleanup_codes_locks_eq]
    exact hk
  | createSessionOp e c f t => exact hk
  | updateCookieGOp sid ck => exact hk
  | sweepSessionsOp t => exact hk
  | cleanupAllOp t =>
    show k ∈ dictKeys (cleanup_processed_codes
      ⟨g.locks, g.processed⟩).locks
    rw [cleanup_codes_locks_eq]
    exact hk

/-- C10: the per-fingerprint lock table only grows.  `acquire` inserts a
lock for each new fingerprint, `release` never deletes one, and the three
cleanup routines (alone or composed in `cleanup_oauth_data`) touch only
the state map, the processed-code set and the session map — so over every
sequence of module operations the lock table's key set is monotone. -/
theorem lock_table_monotone (hash : String → String) (ops : List GlobalOp)
    (g : GlobalState) :
    ∀ k ∈ dictKeys g.locks,
      k ∈ dictKeys ((ops.foldl (applyGlobalOp hash) g)).locks := by
  induction ops generalizing g with
  | nil => exact fun k hk => hk
  | cons op rest ih =>
    intro k hk
    exact ih (applyGlobalOp hash g op) k
      (lock_table_monotone_step hash g op k hk)

/-- Witness for `lock_table_monotone`: a store holding the lock for `fp1`
keeps it across a full cleanup, a session create, a foreign admission and
a release. -/
theorem lock_table_monotone_witness :
    ("fp1" ∈ dictKeys
        (⟨[], [("fp1", false)], [], []⟩ : GlobalState).locks) ∧
    "fp1" ∈ dictKeys
      (([GlobalOp.cleanupAllOp 0, GlobalOp.admitOp "c2",
         GlobalOp.createSessionOp "a@x" none "id1" 0,
         GlobalOp.relOp "c2" true].foldl
          (applyGlobalOp (fun c => c))
          ⟨[], [("fp1", false)], [], []⟩)).locks :=
  ⟨by decide,
   lock_table_monotone (fun c => c)
     [GlobalOp.cleanupAllOp 0, GlobalOp.admitOp "c2",
      GlobalOp.createSessionOp "a@x" none "id1" 0,
      GlobalOp.relOp "c2" true]
     ⟨[], [("fp1", false)], [], []⟩ "fp1" (by decide)⟩

end N8nSso
